import Mathlib

/-!
Verification of the core logic of the Osu-Mania bot (`src/main.py`,
class `OsuManiaBot`): the column reducer `_slice_columns`, the input
state machine `_handle_press`, construction `__init__` /
`_initialize_states`, and the fixed key-code table `_codes`.

Pixels are modelled as `Nat` (the thresholded frames hold the two
levels 0 and 255).  Python lists become Lean `List`s; a Python slice
`row[a:b]` with non-negative bounds is `(row.drop a).take (b - a)`
(the bounds arising in `_slice_columns` are provably non-negative:
`tolerance = 0` whenever `width = 0`, and `tolerance < width`
otherwise, so no negative-index wraparound can occur).  Fallible
Python operations (dict lookup `self._codes[i]`, list indexing
`self._col_states[i]`, integer division by zero) are modelled with
`Except String`.
-/

namespace OsuBot

/-- Key-injection events emitted by `_handle_press`:
`key_press.PressKey code` and `key_press.ReleaseKey code`. -/
inductive Action where
  | press : Nat → Action
  | release : Nat → Action
  deriving DecidableEq

/-- `np.all(col)` on a list of numeric pixel samples: `true` iff every
sample is non-zero.  On the empty list `np.all` returns `True`. -/
def npAll (col : List Nat) : Bool :=
  col.all (fun x => x != 0)

/-- Python slice `row[a:b]` for `0 ≤ a` and `0 ≤ b` (the only case
arising in `_slice_columns`): drop the first `a` elements and keep at
most `b - a` of the rest; clamping at the list's end and the empty
result for `b ≤ a` agree with Python. -/
def pySlice (row : List Nat) (a b : Nat) : List Nat :=
  (row.drop a).take (b - a)

/-- Python `round(w * 0.2)` for a natural `w`, i.e. the tolerance
computation of `_slice_columns`.  Since `w / 5` is never exactly
half-way between two integers (its fractional part is a multiple of
1/5), round-half-even equals rounding to the nearest integer, which is
`(2 * w + 5) / 10` in integer division; this agrees with CPython's
float evaluation of `round(w * 0.2)` for every screen-sized `w`
(checked exhaustively far beyond any pixel width). -/
def pyRound02 (w : Nat) : Nat :=
  (2 * w + 5) / 10

/-- The inner loop of `_slice_columns`:
`for i in range(len(cols)): cols[i].extend(row[i*width+tolerance : (i+1)*width-tolerance])`,
started at column index `i`. -/
def extendCols (width tolerance : Nat) (row : List Nat) :
    Nat → List (List Nat) → List (List Nat)
  | _, [] => []
  | i, c :: cs =>
      (c ++ pySlice row (i * width + tolerance) ((i + 1) * width - tolerance))
        :: extendCols width tolerance row (i + 1) cs

/-- `OsuManiaBot._slice_columns` for a non-zero column count:
`width = len(screen[0]) // columns`, `tolerance = round(width * 0.2)`,
`cols = [[] for _ in range(columns)]`, then the row loop extends each
column's list with the trimmed band slice of that row. -/
def sliceColumns (screen : List (List Nat)) (columns : Nat) : List (List Nat) :=
  let width := (screen.headD []).length / columns
  let tolerance := pyRound02 width
  screen.foldl (fun cols row => extendCols width tolerance row 0 cols)
    (List.replicate columns [])

/-- `OsuManiaBot._slice_columns` as actually executed: its first
statement `width = len(screen[0]) // self.columns` raises
`ZeroDivisionError` when `self.columns == 0` (Python `//` is fallible
at a zero divisor); otherwise the method is total. -/
def sliceColumnsE (screen : List (List Nat)) (columns : Nat) :
    Except String (List (List Nat)) :=
  if columns = 0 then Except.error "ZeroDivisionError"
  else Except.ok (sliceColumns screen columns)

/-- The fixed dict literal `self._codes` from `__init__`: column index
to DirectInput scan code, entries for indices 0 through 9 only; any
other key raises `KeyError` (modelled as `none`). -/
def osuCodes : Nat → Option Nat
  | 0 => some 0x02
  | 1 => some 0x03
  | 2 => some 0x04
  | 3 => some 0x05
  | 4 => some 0x06
  | 5 => some 0x07
  | 6 => some 0x08
  | 7 => some 0x09
  | 8 => some 0x10
  | 9 => some 0x11
  | _ => none

/-- `OsuManiaBot._initialize_states`:
`[False for _ in range(self.columns)]`. -/
def initStates (columns : Nat) : List Bool :=
  (List.range columns).map (fun _ => false)

/-- The instance attributes set by `OsuManiaBot.__init__` (the key-code
dict is the same literal for every instance and is modelled by the
global `osuCodes`). -/
structure OsuManiaBot where
  bbox : Nat × Nat × Nat × Nat
  columns : Nat
  col_states : List Bool
  inplay : Bool
  deriving DecidableEq

/-- `OsuManiaBot.__init__(bbox, columns)`.  The body performs no
fallible operation (attribute assignments, a list comprehension and a
dict literal), so construction always returns `ok`; the `Except`
codomain records where a Python exception could have surfaced. -/
def mkBot (bbox : Nat × Nat × Nat × Nat) (columns : Nat) :
    Except String OsuManiaBot :=
  Except.ok ⟨bbox, columns, initStates columns, false⟩

/-- `OsuManiaBot._handle_press`, iterating `for i, col in
enumerate(cols)` from index `i` with the remaining column states:
`np.all(col)` decides the signal; a rising edge presses
`codes i` and sets the state, a falling edge releases it and clears
the state.  `self._col_states[i]` raises `IndexError` past the end of
the state list and `self._codes[i]` raises `KeyError` outside the
table; on an error, actions already emitted are discarded (only the
raising itself is observed). -/
def handlePress (codes : Nat → Option Nat) :
    Nat → List (List Nat) → List Bool → Except String (List Action × List Bool)
  | _, [], sts => Except.ok ([], sts)
  | _, _ :: _, [] => Except.error "IndexError"
  | i, col :: cols, st :: sts =>
    if npAll col && !st then
      match codes i with
      | none => Except.error "KeyError"
      | some c =>
        match handlePress codes (i + 1) cols sts with
        | Except.error e => Except.error e
        | Except.ok (acts, sts') => Except.ok (Action.press c :: acts, true :: sts')
    else if !(npAll col) && st then
      match codes i with
      | none => Except.error "KeyError"
      | some c =>
        match handlePress codes (i + 1) cols sts with
        | Except.error e => Except.error e
        | Except.ok (acts, sts') => Except.ok (Action.release c :: acts, false :: sts')
    else
      match handlePress codes (i + 1) cols sts with
      | Except.error e => Except.error e
      | Except.ok (acts, sts') => Except.ok (acts, st :: sts')

/-- Repeated `_handle_press` calls as performed by `run()`'s loop, one
per captured frame (each frame already sliced into its column lists),
threading the column states and collecting each frame's actions. -/
def runFrames (codes : Nat → Option Nat) :
    List (List (List Nat)) → List Bool → Except String (List (List Action) × List Bool)
  | [], sts => Except.ok ([], sts)
  | f :: fs, sts =>
    match handlePress codes 0 f sts with
    | Except.error e => Except.error e
    | Except.ok (acts, sts') =>
      match runFrames codes fs sts' with
      | Except.error e => Except.error e
      | Except.ok (actss, stsF) => Except.ok (acts :: actss, stsF)

/-- One column's transition rule, following the spec's words (§4.2):
signal true and state false → Press and hold; signal false and state
true → Release and clear; otherwise no action, state unchanged. -/
def stepCol (bindings : Nat → Nat) (i : Nat) (sig st : Bool) :
    Option Action × Bool :=
  if sig && !st then (some (Action.press (bindings i)), true)
  else if !sig && st then (some (Action.release (bindings i)), false)
  else (none, st)

/-- The Input State Machine contract, following the spec's words
(§4.2): apply `stepCol` at each column index in order; each column
contributes at most one action (an `Option Action`) and its updated
state.  To be compared with the source-derived `handlePress`. -/
def updateSpec (bindings : Nat → Nat) :
    Nat → List Bool → List Bool → List (Option Action) × List Bool
  | _, [], sts => ([], sts)
  | _, _ :: _, [] => ([], [])
  | i, s :: sigs, st :: sts =>
    let p := stepCol bindings i s st
    let r := updateSpec bindings (i + 1) sigs sts
    (p.1 :: r.1, p.2 :: r.2)

/-- `updateSpec` folded over a sequence of per-frame signal vectors. -/
def runSpec (bindings : Nat → Nat) :
    List (List Bool) → List Bool → List (List (Option Action)) × List Bool
  | [], sts => ([], sts)
  | sg :: rest, sts =>
    let u := updateSpec bindings 0 sg sts
    let r := runSpec bindings rest u.2
    (u.1 :: r.1, r.2)

/-- The temporal behaviour of one fixed column across frames: from a
held state `st`, each frame's signal yields `some true` (a press),
`some false` (a release) or `none`, and the held state evolves
accordingly. -/
def colRun : List Bool → Bool → List (Option Bool) × Bool
  | [], st => ([], st)
  | s :: sigs, st =>
    if s && !st then
      let r := colRun sigs true
      (some true :: r.1, r.2)
    else if !s && st then
      let r := colRun sigs false
      (some false :: r.1, r.2)
    else
      let r := colRun sigs st
      (none :: r.1, r.2)

/-- `altFrom b xs`: the boolean word `xs` strictly alternates and
begins with `b`. -/
def altFrom : Bool → List Bool → Bool
  | _, [] => true
  | b, x :: xs => (x == b) && altFrom (!b) xs

/-- Render a press/release bit for one column as the emitted action. -/
def actOf (code : Nat) (b : Bool) : Action :=
  if b then Action.press code else Action.release code

/-- The trimmed band of column `i`: the concatenation, over all rows,
of the slice `row[i*width+tolerance : (i+1)*width-tolerance]`, with
`width` and `tolerance` computed as in `_slice_columns`. -/
def bandOf (screen : List (List Nat)) (columns i : Nat) : List Nat :=
  let width := (screen.headD []).length / columns
  let tolerance := pyRound02 width
  (screen.map (fun row =>
    pySlice row (i * width + tolerance) ((i + 1) * width - tolerance))).flatten

theorem extendCols_length (w t : Nat) (row : List Nat) :
    ∀ (i : Nat) (cs : List (List Nat)), (extendCols w t row i cs).length = cs.length := by
  intro i cs
  induction cs generalizing i with
  | nil => rfl
  | cons c cs ih => simp [extendCols, ih]

theorem extendCols_getD (w t : Nat) (row : List Nat) :
    ∀ (cs : List (List Nat)) (i j : Nat), j < cs.length →
      (extendCols w t row i cs).getD j [] =
        cs.getD j [] ++ pySlice row ((i + j) * w + t) ((i + j + 1) * w - t) := by
  intro cs
  induction cs with
  | nil => intro i j h; simp at h
  | cons c cs ih =>
    intro i j h
    cases j with
    | zero => simp [extendCols]
    | succ j =>
      have hj : j < cs.length := by simpa using h
      have := ih (i + 1) j hj
      have hidx : i + 1 + j = i + (j + 1) := by omega
      have hidx2 : i + 1 + j + 1 = i + (j + 1) + 1 := by omega
      simpa [extendCols, hidx, hidx2] using this

theorem foldl_extendCols_length (w t : Nat) :
    ∀ (screen : List (List Nat)) (acc : List (List Nat)),
      (screen.foldl (fun cols row => extendCols w t row 0 cols) acc).length = acc.length := by
  intro screen
  induction screen with
  | nil => intro acc; rfl
  | cons row rest ih =>
    intro acc
    simp only [List.foldl_cons]
    rw [ih, extendCols_length]

theorem foldl_extendCols_getD (w t : Nat) :
    ∀ (screen : List (List Nat)) (acc : List (List Nat)) (j : Nat), j < acc.length →
      (screen.foldl (fun cols row => extendCols w t row 0 cols) acc).getD j [] =
        acc.getD j [] ++
          (screen.map (fun row => pySlice row (j * w + t) ((j + 1) * w - t))).flatten := by
  intro screen
  induction screen with
  | nil => intro acc j h; simp
  | cons row rest ih =>
    intro acc j h
    have hlen : j < (extendCols w t row 0 acc).length := by rwa [extendCols_length]
    simp only [List.foldl_cons]
    rw [ih (extendCols w t row 0 acc) j hlen, extendCols_getD w t row acc 0 j h]
    simp [List.append_assoc]

theorem getD_replicate_nil :
    ∀ (n j : Nat), (List.replicate n ([] : List Nat)).getD j [] = [] := by
  intro n
  induction n with
  | zero => intro j; cases j <;> rfl
  | succ n ih =>
    intro j
    cases j with
    | zero => rfl
    | succ j => exact ih j

/-- Closed form of `_slice_columns`: the `i`-th returned column list is
exactly the trimmed band of column `i`. -/
theorem sliceColumns_getD (screen : List (List Nat)) (columns i : Nat)
    (hi : i < columns) :
    (sliceColumns screen columns).getD i [] = bandOf screen columns i := by
  have h : i < (List.replicate columns ([] : List Nat)).length := by
    simpa using hi
  simp only [sliceColumns, bandOf]
  rw [foldl_extendCols_getD _ _ screen (List.replicate columns []) i h,
    getD_replicate_nil]
  simp

theorem sliceColumns_length (screen : List (List Nat)) (columns : Nat) :
    (sliceColumns screen columns).length = columns := by
  simp only [sliceColumns]
  rw [foldl_extendCols_length]
  simp

theorem initStates_eq_replicate (n : Nat) :
    initStates n = List.replicate n false := by
  simp [initStates, List.map_const]

theorem initStates_getD (n i : Nat) : (initStates n).getD i false = false := by
  rw [initStates_eq_replicate]
  induction n generalizing i with
  | zero => cases i <;> rfl
  | succ n ih =>
    cases i with
    | zero => rfl
    | succ i => exact ih i

theorem getD_map_of_lt {α β : Type} (g : α → β) (d : β) (d' : α) :
    ∀ (l : List α) (i : Nat), i < l.length →
      (l.map g).getD i d = g (l.getD i d') := by
  intro l
  induction l with
  | nil => intro i h; simp at h
  | cons a l ih =>
    intro i h
    cases i with
    | zero => rfl
    | succ i => exact ih i (by simpa using h)

theorem map_eq_of_getD {α β : Type} (f g : α → β) (d : α) :
    ∀ (l1 l2 : List α), l1.length = l2.length →
      (∀ r, r < l1.length → f (l1.getD r d) = g (l2.getD r d)) →
      l1.map f = l2.map g := by
  intro l1
  induction l1 with
  | nil =>
    intro l2 hlen _
    cases l2 with
    | nil => rfl
    | cons b l2 => simp at hlen
  | cons a l1 ih =>
    intro l2 hlen hr
    cases l2 with
    | nil => simp at hlen
    | cons b l2 =>
      have h0 := hr 0 (by simp)
      simp only [List.getD_cons_zero] at h0
      have := ih l2 (by simpa using hlen)
        (fun r hrl => hr (r + 1) (by simpa using hrl))
      simp [h0, this]

/-- `_handle_press` with an everywhere-defined code table never raises
and computes exactly the spec contract `updateSpec` on the signals
`np.all` of each column list, returning the flattened actions and the
updated states. -/
theorem handlePress_ok (bindings : Nat → Nat) :
    ∀ (cols : List (List Nat)) (sts : List Bool) (i : Nat),
      cols.length = sts.length →
      handlePress (fun j => some (bindings j)) i cols sts =
        Except.ok ((updateSpec bindings i (cols.map npAll) sts).1.reduceOption,
                   (updateSpec bindings i (cols.map npAll) sts).2) := by
  intro cols
  induction cols with
  | nil =>
    intro sts i h
    cases sts with
    | nil => rfl
    | cons st sts => simp at h
  | cons col cols ih =>
    intro sts i h
    cases sts with
    | nil => simp at h
    | cons st sts =>
      have ihr := ih sts (i + 1) (by simpa using h)
      cases hnp : npAll col <;> cases st <;>
        simp [handlePress, updateSpec, stepCol, hnp, ihr, List.reduceOption]

theorem updateSpec_snd_length (bindings : Nat → Nat) :
    ∀ (sigs sts : List Bool) (i : Nat), sigs.length = sts.length →
      (updateSpec bindings i sigs sts).2.length = sts.length := by
  intro sigs
  induction sigs with
  | nil =>
    intro sts i h
    cases sts with
    | nil => rfl
    | cons st sts => simp at h
  | cons s sigs ih =>
    intro sts i h
    cases sts with
    | nil => simp at h
    | cons st sts => simp [updateSpec, ih sts (i + 1) (by simpa using h)]

/-- Per-column projection of the spec contract: the `j`-th emitted
action option and the `j`-th updated state are `stepCol` of the `j`-th
signal and the `j`-th previous state. -/
theorem updateSpec_getD (bindings : Nat → Nat) :
    ∀ (sigs sts : List Bool) (i j : Nat), sigs.length = sts.length →
      j < sigs.length →
      (updateSpec bindings i sigs sts).1.getD j none =
          (stepCol bindings (i + j) (sigs.getD j false) (sts.getD j false)).1 ∧
        (updateSpec bindings i sigs sts).2.getD j false =
          (stepCol bindings (i + j) (sigs.getD j false) (sts.getD j false)).2 := by
  intro sigs
  induction sigs with
  | nil => intro sts i j _ hj; simp at hj
  | cons s sigs ih =>
    intro sts i j h hj
    cases sts with
    | nil => simp at h
    | cons st sts =>
      cases j with
      | zero => simp [updateSpec]
      | succ j =>
        have hj' : j < sigs.length := by simpa using hj
        have := ih sts (i + 1) j (by simpa using h) hj'
        have hidx : i + 1 + j = i + (j + 1) := by omega
        simpa [updateSpec, hidx] using this

/-- `_handle_press` on signals equal to the current states: no branch
fires, no action is emitted, the states are returned unchanged. -/
theorem handlePress_steady (bindings : Nat → Nat) :
    ∀ (cols : List (List Nat)) (sts : List Bool) (i : Nat),
      cols.map npAll = sts →
      handlePress (fun j => some (bindings j)) i cols sts =
        Except.ok ([], sts) := by
  intro cols
  induction cols with
  | nil =>
    intro sts i h
    cases sts with
    | nil => rfl
    | cons st sts => simp at h
  | cons col cols ih =>
    intro sts i h
    cases sts with
    | nil => simp at h
    | cons st sts =>
      simp only [List.map_cons, List.cons.injEq] at h
      have ihr := ih sts (i + 1) h.2
      cases hnp : npAll col <;>
        simp [handlePress, hnp, ihr, ← h.1, hnp]

theorem runFrames_steady (bindings : Nat → Nat) (cols : List (List Nat))
    (sts : List Bool) (h : cols.map npAll = sts) :
    ∀ n : Nat,
      runFrames (fun j => some (bindings j)) (List.replicate n cols) sts =
        Except.ok (List.replicate n [], sts) := by
  intro n
  induction n with
  | zero => rfl
  | succ n ih =>
    simp only [List.replicate, runFrames, handlePress_steady bindings cols sts 0 h, ih]

/-- The frame loop with an everywhere-defined code table never raises
and computes `runSpec` on the per-frame signal vectors. -/
theorem runFrames_ok (bindings : Nat → Nat) :
    ∀ (frames : List (List (List Nat))) (sts : List Bool),
      (∀ f ∈ frames, f.length = sts.length) →
      runFrames (fun j => some (bindings j)) frames sts =
        Except.ok
          ((runSpec bindings (frames.map (fun f => f.map npAll)) sts).1.map
              List.reduceOption,
           (runSpec bindings (frames.map (fun f => f.map npAll)) sts).2) := by
  intro frames
  induction frames with
  | nil => intro sts _; rfl
  | cons f fs ih =>
    intro sts hf
    have hfl : f.length = sts.length := hf f (by simp)
    have h1 := handlePress_ok bindings f sts 0 hfl
    have hlen2 : (updateSpec bindings 0 (f.map npAll) sts).2.length = sts.length :=
      updateSpec_snd_length bindings (f.map npAll) sts 0 (by simpa using hfl)
    have ihr := ih (updateSpec bindings 0 (f.map npAll) sts).2
      (by intro g hg; rw [hlen2]; exact hf g (by simp [hg]))
    simp [runFrames, h1, ihr, runSpec]

/-- Per-column temporal projection: for a fixed column `i`, the stream
of per-frame action options produced by `runSpec` is exactly `colRun`
on that column's signal stream, rendered through the column's key
code; the final state of column `i` agrees as well. -/
theorem runSpec_proj (bindings : Nat → Nat) :
    ∀ (sigss : List (List Bool)) (sts : List Bool) (i : Nat),
      i < sts.length → (∀ sg ∈ sigss, sg.length = sts.length) →
      (runSpec bindings sigss sts).1.map (fun opts => opts.getD i none) =
          ((colRun (sigss.map (fun sg => sg.getD i false)) (sts.getD i false)).1).map
            (Option.map (actOf (bindings i))) ∧
        (runSpec bindings sigss sts).2.getD i false =
          (colRun (sigss.map (fun sg => sg.getD i false)) (sts.getD i false)).2 := by
  intro sigss
  induction sigss with
  | nil => intro sts i _ _; exact ⟨rfl, rfl⟩
  | cons sg rest ih =>
    intro sts i hi hlen
    have hsg : sg.length = sts.length := hlen sg (by simp)
    have hproj := updateSpec_getD bindings sg sts 0 i hsg (by omega)
    have hlen2 : (updateSpec bindings 0 sg sts).2.length = sts.length :=
      updateSpec_snd_length bindings sg sts 0 hsg
    have ihr := ih (updateSpec bindings 0 sg sts).2 i (by omega)
      (by intro g hg; rw [hlen2]; exact hlen g (by simp [hg]))
    simp only [Nat.zero_add] at hproj
    cases hs : sg.getD i false <;> cases hst : sts.getD i false <;>
      (rw [hs, hst] at hproj
       simp only [stepCol] at hproj
       simp only [Bool.not_false, Bool.not_true, Bool.and_self, Bool.and_false,
         Bool.false_and, Bool.true_and, Bool.and_true, Bool.false_eq_true,
         ite_false, ite_true, if_false, if_true, Bool.true_eq_false] at hproj
       rw [hproj.2] at ihr
       have h1 := hproj.1
       simp only [List.getD_eq_getElem?_getD] at hs hst h1 ihr ⊢
       simp [runSpec, colRun, hs, hst, h1, ihr.1, ihr.2, actOf])

/-- The press/release events of one column strictly alternate: from a
held state `st`, the first event (if any) is the opposite of `st` and
the events then alternate. -/
theorem colRun_alt :
    ∀ (sigs : List Bool) (st : Bool),
      altFrom (!st) ((colRun sigs st).1.reduceOption) = true := by
  intro sigs
  induction sigs with
  | nil => intro st; rfl
  | cons s sigs ih =>
    intro st
    have ih1 := ih true
    have ih0 := ih false
    simp only [Bool.not_true, Bool.not_false, List.reduceOption] at ih1 ih0
    cases s <;> cases st <;>
      simp [colRun, altFrom, List.reduceOption, ih1, ih0]

theorem length_headD (screen : List (List Nat)) (fw : Nat) (h0 : screen ≠ [])
    (hw : ∀ row ∈ screen, row.length = fw) : (screen.headD []).length = fw := by
  cases screen with
  | nil => exact absurd rfl h0
  | cons r rest => exact hw r (by simp)

theorem npAll_eq_true_iff (col : List Nat) :
    npAll col = true ↔ ∀ x ∈ col, x ≠ 0 := by
  simp [npAll]

theorem pySlice_subset (row : List Nat) (a b : Nat) : pySlice row a b ⊆ row :=
  (List.take_subset _ _).trans (List.drop_subset _ _)

theorem exists_row_of_mem_bandOf (screen : List (List Nat)) (columns i x : Nat)
    (hx : x ∈ bandOf screen columns i) : ∃ row ∈ screen, x ∈ row := by
  simp only [bandOf, List.mem_flatten, List.mem_map] at hx
  obtain ⟨l, ⟨row, hrow, rfl⟩, hxl⟩ := hx
  exact ⟨row, hrow, pySlice_subset _ _ _ hxl⟩

theorem pySlice_eq_nil (row : List Nat) (w t i : Nat) (h : w ≤ 2 * t) :
    pySlice row (i * w + t) ((i + 1) * w - t) = [] := by
  have hmul : (i + 1) * w = i * w + w := by ring
  have hz : ((i + 1) * w - t) - (i * w + t) = 0 := by omega
  simp [pySlice, hz]

theorem flatten_map_const_nil {α : Type} :
    ∀ l : List α, (l.map (fun _ => ([] : List Nat))).flatten = [] := by
  intro l
  induction l with
  | nil => rfl
  | cons a l ih => simp [ih]

theorem bandOf_eq_nil (screen : List (List Nat)) (columns i : Nat)
    (hdeg : (screen.headD []).length / columns ≤
      2 * pyRound02 ((screen.headD []).length / columns)) :
    bandOf screen columns i = [] := by
  simp only [bandOf]
  rw [List.map_congr_left (fun row _ =>
    pySlice_eq_nil row ((screen.headD []).length / columns)
      (pyRound02 ((screen.headD []).length / columns)) i hdeg)]
  exact flatten_map_const_nil screen

/-- C3: for every frame with rows of equal length `fw ≥ columns ≥ 1`,
the column reducer uses exactly the band boundaries
`width = fw / columns` (integer division),
`tolerance = round(width * 0.2)` (`pyRound02 width`), and the `i`-th
column list is the slice `row[i*width+tolerance : (i+1)*width-tolerance]`
concatenated over all rows.  Instantiated at `fw = 100`, `columns = 4`,
`i = 0`, the band is `row[5:20]` of every row (see the witness). -/
theorem claim_c3_band_boundaries (screen : List (List Nat)) (columns fw i : Nat)
    (h0 : screen ≠ []) (hw : ∀ row ∈ screen, row.length = fw)
    (_hc : 1 ≤ columns) (_hcf : columns ≤ fw) (hi : i < columns) :
    (sliceColumns screen columns).getD i [] =
      (screen.map (fun row =>
        pySlice row (i * (fw / columns) + pyRound02 (fw / columns))
          ((i + 1) * (fw / columns) - pyRound02 (fw / columns)))).flatten := by
  rw [sliceColumns_getD screen columns i hi]
  simp only [bandOf]
  rw [length_headD screen fw h0 hw]

/-- C4: for a binary frame (all samples 0 or 255), the signal
`np.all` of column `i`'s trimmed band is true exactly when every
sample of the band equals the on level 255 — a strict AND reduction
with no partial or ratio threshold. -/
theorem claim_c4_strict_and (screen : List (List Nat)) (columns fw i : Nat)
    (_h0 : screen ≠ []) (_hw : ∀ row ∈ screen, row.length = fw)
    (_hc : 1 ≤ columns) (_hcf : columns ≤ fw) (hi : i < columns)
    (hbin : ∀ row ∈ screen, ∀ x ∈ row, x = 0 ∨ x = 255) :
    npAll ((sliceColumns screen columns).getD i []) = true ↔
      ∀ x ∈ bandOf screen columns i, x = 255 := by
  rw [sliceColumns_getD screen columns i hi, npAll_eq_true_iff]
  constructor
  · intro h x hx
    obtain ⟨row, hrow, hxr⟩ := exists_row_of_mem_bandOf screen columns i x hx
    rcases hbin row hrow x hxr with h0' | h255
    · exact absurd h0' (h x hx)
    · exact h255
  · intro h x hx
    rw [h x hx]
    omega

/-- C5: when a column's trimmed band is empty (`tolerance * 2 ≥
width`), the sliced column list is `[]` and the reduction is defined
and vacuously lit: `np.all` of an empty collection is true. -/
theorem claim_c5_empty_band (screen : List (List Nat)) (columns i : Nat)
    (_hc : 1 ≤ columns) (hi : i < columns)
    (hdeg : (screen.headD []).length / columns ≤
      2 * pyRound02 ((screen.headD []).length / columns)) :
    (sliceColumns screen columns).getD i [] = [] ∧
      npAll ((sliceColumns screen columns).getD i []) = true := by
  have hb : (sliceColumns screen columns).getD i [] = [] := by
    rw [sliceColumns_getD screen columns i hi]
    exact bandOf_eq_nil screen columns i hdeg
  exact ⟨hb, by rw [hb]; rfl⟩

/-- C6: for every column count `≥ 1` and every frame with rows of
equal length `fw ≥ columns`, the column reducer produces exactly
`columns` column lists (hence exactly `columns` signals). -/
theorem claim_c6_partition_coverage (screen : List (List Nat)) (columns fw : Nat)
    (_h0 : screen ≠ []) (_hw : ∀ row ∈ screen, row.length = fw)
    (_hc : 1 ≤ columns) (_hcf : columns ≤ fw) :
    (sliceColumns screen columns).length = columns :=
  sliceColumns_length screen columns

/-- C8: construction with `columns = 0` succeeds with an empty column
state, but `_slice_columns` raises `ZeroDivisionError` on every frame
(the division `len(screen[0]) // self.columns` is unguarded) instead
of returning an empty sequence of signals. -/
theorem claim_c8_zero_columns (bbox : Nat × Nat × Nat × Nat)
    (screen : List (List Nat)) :
    mkBot bbox 0 = Except.ok ⟨bbox, 0, [], false⟩ ∧
      sliceColumnsE screen 0 = Except.error "ZeroDivisionError" :=
  ⟨rfl, rfl⟩

/-- C1 is false as stated: constructing the bot with `columns = 11`
(beyond the 10-entry key table) does not fail fast — `__init__`
performs no validation and succeeds; moreover the first frame need not
fail either (an all-dark frame triggers no key lookup), while a frame
lighting column 10 raises `KeyError` inside `_handle_press`. -/
theorem claim_c1_counterexample :
    mkBot (250, 574, 510, 575) 11 =
        Except.ok ⟨(250, 574, 510, 575), 11, initStates 11, false⟩ ∧
      handlePress osuCodes 0 (List.replicate 11 [255]) (initStates 11) =
        Except.error "KeyError" ∧
      handlePress osuCodes 0 (List.replicate 11 [0]) (initStates 11) =
        Except.ok ([], initStates 11) :=
  ⟨rfl, rfl, rfl⟩

/-- C1 (amended): construction succeeds for every column count with
no validation; the key table has no entry for any index `≥ 10`, so the
key lookup fails (`KeyError`) only when `_handle_press` first emits a
press or release for such a column — which need not happen on the
first frame (an all-dark frame emits nothing). -/
theorem claim_c1_amended (bbox : Nat × Nat × Nat × Nat) (c i : Nat)
    (hi : 10 ≤ i) :
    mkBot bbox c = Except.ok ⟨bbox, c, initStates c, false⟩ ∧
      osuCodes i = none ∧
      handlePress osuCodes 0 (List.replicate 11 [255]) (initStates 11) =
        Except.error "KeyError" ∧
      handlePress osuCodes 0 (List.replicate 11 [0]) (initStates 11) =
        Except.ok ([], initStates 11) := by
  refine ⟨rfl, ?_, rfl, rfl⟩
  have h : i = (i - 10) + 10 := by omega
  rw [h]
  rfl

/-- C2: on equal-length signal and state vectors, `_handle_press`
computes exactly the spec transition: column `i` presses
`bindings i` and becomes held exactly when `signals[i] ∧ ¬state[i]`,
releases it and becomes unheld exactly when `¬signals[i] ∧ state[i]`,
and otherwise emits nothing and keeps its state (`stepCol`).  Each
column contributes at most one action (a single `Option Action`), so
at most one press and never a simultaneous release per column per
call, and the returned state is exactly the per-column `stepCol`
state. -/
theorem claim_c2_update_transitions (bindings : Nat → Nat)
    (cols : List (List Nat)) (sigs sts : List Bool)
    (hsig : cols.map npAll = sigs) (hlen : sigs.length = sts.length) :
    handlePress (fun j => some (bindings j)) 0 cols sts =
        Except.ok ((updateSpec bindings 0 sigs sts).1.reduceOption,
          (updateSpec bindings 0 sigs sts).2) ∧
      (updateSpec bindings 0 sigs sts).2.length = sts.length ∧
      ∀ i, i < sts.length →
        (updateSpec bindings 0 sigs sts).1.getD i none =
            (stepCol bindings i (sigs.getD i false) (sts.getD i false)).1 ∧
          (updateSpec bindings 0 sigs sts).2.getD i false =
            (stepCol bindings i (sigs.getD i false) (sts.getD i false)).2 := by
  subst hsig
  have hcl : cols.length = sts.length := by simpa using hlen
  refine ⟨handlePress_ok bindings cols sts 0 hcl,
    updateSpec_snd_length bindings _ sts 0 hlen, ?_⟩
  intro i hi
  have := updateSpec_getD bindings (cols.map npAll) sts 0 i hlen (by omega)
  simpa using this

/-- C7: steady state is idempotent — if the signals equal the current
states, any number of repeated `_handle_press` calls emits no action
on any call and leaves the states unchanged. -/
theorem claim_c7_steady_idempotent (bindings : Nat → Nat)
    (cols : List (List Nat)) (sts : List Bool)
    (h : cols.map npAll = sts) (n : Nat) :
    runFrames (fun j => some (bindings j)) (List.replicate n cols) sts =
      Except.ok (List.replicate n [], sts) :=
  runFrames_steady bindings cols sts h n

/-- C9: column `i`'s signal depends only on the pixels inside its own
trimmed band — two frames of the same dimensions that agree on every
sample of band `i` produce the same sliced band, the same signal, and
(from the same states) the same per-column action, while
`_handle_press` computes the spec contract on both. -/
theorem claim_c9_noninterference (bindings : Nat → Nat)
    (s1 s2 : List (List Nat)) (columns fw i : Nat) (sts : List Bool)
    (h1 : s1 ≠ []) (h2 : s2 ≠ [])
    (hw1 : ∀ row ∈ s1, row.length = fw) (hw2 : ∀ row ∈ s2, row.length = fw)
    (hrows : s1.length = s2.length)
    (_hc : 1 ≤ columns) (_hcf : columns ≤ fw) (hi : i < columns)
    (hst : sts.length = columns)
    (hagree : ∀ r, r < s1.length →
      pySlice (s1.getD r []) (i * (fw / columns) + pyRound02 (fw / columns))
          ((i + 1) * (fw / columns) - pyRound02 (fw / columns)) =
        pySlice (s2.getD r []) (i * (fw / columns) + pyRound02 (fw / columns))
          ((i + 1) * (fw / columns) - pyRound02 (fw / columns))) :
    (sliceColumns s1 columns).getD i [] = (sliceColumns s2 columns).getD i [] ∧
      npAll ((sliceColumns s1 columns).getD i []) =
        npAll ((sliceColumns s2 columns).getD i []) ∧
      (updateSpec bindings 0 ((sliceColumns s1 columns).map npAll) sts).1.getD i none =
        (updateSpec bindings 0 ((sliceColumns s2 columns).map npAll) sts).1.getD i none ∧
      handlePress (fun j => some (bindings j)) 0 (sliceColumns s1 columns) sts =
        Except.ok
          ((updateSpec bindings 0 ((sliceColumns s1 columns).map npAll) sts).1.reduceOption,
           (updateSpec bindings 0 ((sliceColumns s1 columns).map npAll) sts).2) := by
  have hw1' : (s1.headD []).length = fw := length_headD s1 fw h1 hw1
  have hw2' : (s2.headD []).length = fw := length_headD s2 fw h2 hw2
  have hband : (sliceColumns s1 columns).getD i [] =
      (sliceColumns s2 columns).getD i [] := by
    rw [sliceColumns_getD s1 columns i hi, sliceColumns_getD s2 columns i hi]
    simp only [bandOf, hw1', hw2']
    exact congrArg List.flatten
      (map_eq_of_getD _ _ [] s1 s2 hrows hagree)
  have hsg : npAll ((sliceColumns s1 columns).getD i []) =
      npAll ((sliceColumns s2 columns).getD i []) := by rw [hband]
  have hl1 : ((sliceColumns s1 columns).map npAll).length = sts.length := by
    simp [sliceColumns_length, hst]
  have hl2 : ((sliceColumns s2 columns).map npAll).length = sts.length := by
    simp [sliceColumns_length, hst]
  have hilt1 : i < ((sliceColumns s1 columns).map npAll).length := by
    simp [sliceColumns_length]
    omega
  have hilt2 : i < ((sliceColumns s2 columns).map npAll).length := by
    simp [sliceColumns_length]
    omega
  have p1 := updateSpec_getD bindings ((sliceColumns s1 columns).map npAll) sts 0 i hl1 hilt1
  have p2 := updateSpec_getD bindings ((sliceColumns s2 columns).map npAll) sts 0 i hl2 hilt2
  have hm1 : ((sliceColumns s1 columns).map npAll).getD i false =
      npAll ((sliceColumns s1 columns).getD i []) :=
    getD_map_of_lt npAll false [] (sliceColumns s1 columns) i
      (by rw [sliceColumns_length]; omega)
  have hm2 : ((sliceColumns s2 columns).map npAll).getD i false =
      npAll ((sliceColumns s2 columns).getD i []) :=
    getD_map_of_lt npAll false [] (sliceColumns s2 columns) i
      (by rw [sliceColumns_length]; omega)
  refine ⟨hband, hsg, ?_, handlePress_ok bindings (sliceColumns s1 columns) sts 0
    (by rw [sliceColumns_length]; omega)⟩
  rw [p1.1, p2.1, hm1, hm2, hband]

/-- C10: starting from the all-false initial state, over any frame
sequence the run never raises (with a total code table), decomposes
per column — column `i`'s per-frame action stream is `colRun` of its
own signal stream, in which a press is emitted only from an unheld
state and a release only from a held state — and the resulting
press/release events for column `i` strictly alternate, beginning
with a press. -/
theorem claim_c10_alternation (bindings : Nat → Nat)
    (frames : List (List (List Nat))) (n i : Nat)
    (hf : ∀ f ∈ frames, f.length = n) (hi : i < n) :
    runFrames (fun j => some (bindings j)) frames (initStates n) =
        Except.ok
          ((runSpec bindings (frames.map (fun f => f.map npAll)) (initStates n)).1.map
              List.reduceOption,
           (runSpec bindings (frames.map (fun f => f.map npAll)) (initStates n)).2) ∧
      (runSpec bindings (frames.map (fun f => f.map npAll)) (initStates n)).1.map
          (fun opts => opts.getD i none) =
        ((colRun (frames.map (fun f => npAll (f.getD i []))) false).1).map
          (Option.map (actOf (bindings i))) ∧
      altFrom true
        (((colRun (frames.map (fun f => npAll (f.getD i []))) false).1).reduceOption) =
        true := by
  have hlen0 : (initStates n).length = n := by simp [initStates]
  have hf' : ∀ f ∈ frames, f.length = (initStates n).length := by
    intro f hfm
    rw [hlen0]
    exact hf f hfm
  have hrun := runFrames_ok bindings frames (initStates n) hf'
  have hsigl : ∀ sg ∈ frames.map (fun f => f.map npAll),
      sg.length = (initStates n).length := by
    intro sg hsg
    simp only [List.mem_map] at hsg
    obtain ⟨f, hfm, rfl⟩ := hsg
    simp [hlen0, hf f hfm]
  have hproj := runSpec_proj bindings (frames.map (fun f => f.map npAll))
    (initStates n) i (by rw [hlen0]; exact hi) hsigl
  have hstream : (frames.map (fun f => f.map npAll)).map (fun sg => sg.getD i false) =
      frames.map (fun f => npAll (f.getD i [])) := by
    rw [List.map_map]
    exact List.map_congr_left (fun f hfm =>
      getD_map_of_lt npAll false [] f i (by rw [hf f hfm]; exact hi))
  rw [initStates_getD, hstream] at hproj
  refine ⟨hrun, hproj.1, ?_⟩
  simpa using colRun_alt (frames.map (fun f => npAll (f.getD i []))) false

/-- Witness for C1 (amended) at `bbox = (0,0,0,0)`, `columns = 11`,
`i = 10`. -/
theorem claim_c1_witness :
    10 ≤ 10 ∧
      (mkBot (0, 0, 0, 0) 11 =
          Except.ok ⟨(0, 0, 0, 0), 11, initStates 11, false⟩ ∧
        osuCodes 10 = none ∧
        handlePress osuCodes 0 (List.replicate 11 [255]) (initStates 11) =
          Except.error "KeyError" ∧
        handlePress osuCodes 0 (List.replicate 11 [0]) (initStates 11) =
          Except.ok ([], initStates 11)) :=
  ⟨by decide, claim_c1_amended (0, 0, 0, 0) 11 10 (by decide)⟩

/-- Witness for C2 at `cols = [[255],[0]]`, `sigs = [true,false]`,
`state = [false,true]`: a simultaneous press on column 0 and release
on column 1. -/
theorem claim_c2_witness :
    ([[255], [0]] : List (List Nat)).map npAll = [true, false] ∧
      ([true, false] : List Bool).length = ([false, true] : List Bool).length ∧
      (handlePress (fun j => some j) 0 [[255], [0]] [false, true] =
          Except.ok ((updateSpec (fun j => j) 0 [true, false] [false, true]).1.reduceOption,
            (updateSpec (fun j => j) 0 [true, false] [false, true]).2) ∧
        (updateSpec (fun j => j) 0 [true, false] [false, true]).2.length =
          ([false, true] : List Bool).length ∧
        ∀ k, k < ([false, true] : List Bool).length →
          (updateSpec (fun j => j) 0 [true, false] [false, true]).1.getD k none =
              (stepCol (fun j => j) k (([true, false] : List Bool).getD k false)
                (([false, true] : List Bool).getD k false)).1 ∧
            (updateSpec (fun j => j) 0 [true, false] [false, true]).2.getD k false =
              (stepCol (fun j => j) k (([true, false] : List Bool).getD k false)
                (([false, true] : List Bool).getD k false)).2) :=
  ⟨rfl, rfl,
    claim_c2_update_transitions (fun j => j) [[255], [0]] [true, false]
      [false, true] rfl rfl⟩

/-- Witness for C3 at the spec scenario `fw = 100`, `columns = 4`,
`i = 0`: band width 25, tolerance 5, band 0 = `row[5:20]` — for the
row `0,1,...,99` this is the samples `5..19`. -/
theorem claim_c3_witness :
    ([List.range 100] : List (List Nat)) ≠ [] ∧
      (∀ row ∈ ([List.range 100] : List (List Nat)), row.length = 100) ∧
      1 ≤ 4 ∧ 4 ≤ 100 ∧ 0 < 4 ∧
      (sliceColumns [List.range 100] 4).getD 0 [] =
        (([List.range 100] : List (List Nat)).map (fun row =>
          pySlice row (0 * (100 / 4) + pyRound02 (100 / 4))
            ((0 + 1) * (100 / 4) - pyRound02 (100 / 4)))).flatten ∧
      (sliceColumns [List.range 100] 4).getD 0 [] =
        ((List.range 100).drop 5).take 15 :=
  ⟨by decide, by decide, by decide, by decide, by decide,
    claim_c3_band_boundaries [List.range 100] 4 100 0 (by decide) (by decide)
      (by decide) (by decide) (by decide),
    rfl⟩

/-- Witness for C4 at a binary fully-lit frame of width 100 with 4
columns, column 0. -/
theorem claim_c4_witness :
    ([List.replicate 100 255] : List (List Nat)) ≠ [] ∧
      (∀ row ∈ ([List.replicate 100 255] : List (List Nat)), row.length = 100) ∧
      1 ≤ 4 ∧ 4 ≤ 100 ∧ 0 < 4 ∧
      (∀ row ∈ ([List.replicate 100 255] : List (List Nat)),
        ∀ x ∈ row, x = 0 ∨ x = 255) ∧
      (npAll ((sliceColumns [List.replicate 100 255] 4).getD 0 []) = true ↔
        ∀ x ∈ bandOf [List.replicate 100 255] 4 0, x = 255) :=
  ⟨by decide, by decide, by decide, by decide, by decide, by decide,
    claim_c4_strict_and [List.replicate 100 255] 4 100 0 (by decide) (by decide)
      (by decide) (by decide) (by decide) (by decide)⟩

/-- Witness for C5: frame width 2 with 3 columns gives `width = 0`,
`tolerance = 0`, `2 * tolerance ≥ width`; column 0's band is empty and
vacuously lit. -/
theorem claim_c5_witness :
    1 ≤ 3 ∧ 0 < 3 ∧
      (([[7, 7]] : List (List Nat)).headD []).length / 3 ≤
        2 * pyRound02 ((([[7, 7]] : List (List Nat)).headD []).length / 3) ∧
      ((sliceColumns [[7, 7]] 3).getD 0 [] = [] ∧
        npAll ((sliceColumns [[7, 7]] 3).getD 0 []) = true) :=
  ⟨by decide, by decide, by decide,
    claim_c5_empty_band [[7, 7]] 3 0 (by decide) (by decide) (by decide)⟩

/-- Witness for C6 at a width-8 frame with 4 columns. -/
theorem claim_c6_witness :
    ([List.replicate 8 0] : List (List Nat)) ≠ [] ∧
      (∀ row ∈ ([List.replicate 8 0] : List (List Nat)), row.length = 8) ∧
      1 ≤ 4 ∧ 4 ≤ 8 ∧
      (sliceColumns [List.replicate 8 0] 4).length = 4 :=
  ⟨by decide, by decide, by decide, by decide,
    claim_c6_partition_coverage [List.replicate 8 0] 4 8 (by decide) (by decide)
      (by decide) (by decide)⟩

/-- Witness for C7: three repeated frames whose signals equal the
current states `[true, false]` emit no actions and keep the states. -/
theorem claim_c7_witness :
    ([[255], [0]] : List (List Nat)).map npAll = [true, false] ∧
      runFrames (fun j => some j) (List.replicate 3 [[255], [0]]) [true, false] =
        Except.ok (List.replicate 3 [], [true, false]) :=
  ⟨rfl, claim_c7_steady_idempotent (fun j => j) [[255], [0]] [true, false] rfl 3⟩

/-- Witness for C9: two one-row frames of width 3 with 1 column
(band = `row[1:2]`) agreeing on the band sample `5` but differing
outside it. -/
theorem claim_c9_witness :
    ([[9, 5, 7]] : List (List Nat)) ≠ [] ∧
      ([[0, 5, 0]] : List (List Nat)) ≠ [] ∧
      (∀ row ∈ ([[9, 5, 7]] : List (List Nat)), row.length = 3) ∧
      (∀ row ∈ ([[0, 5, 0]] : List (List Nat)), row.length = 3) ∧
      ([[9, 5, 7]] : List (List Nat)).length = ([[0, 5, 0]] : List (List Nat)).length ∧
      1 ≤ 1 ∧ 1 ≤ 3 ∧ 0 < 1 ∧ ([false] : List Bool).length = 1 ∧
      (∀ r, r < ([[9, 5, 7]] : List (List Nat)).length →
        pySlice (([[9, 5, 7]] : List (List Nat)).getD r [])
            (0 * (3 / 1) + pyRound02 (3 / 1)) ((0 + 1) * (3 / 1) - pyRound02 (3 / 1)) =
          pySlice (([[0, 5, 0]] : List (List Nat)).getD r [])
            (0 * (3 / 1) + pyRound02 (3 / 1)) ((0 + 1) * (3 / 1) - pyRound02 (3 / 1))) ∧
      ((sliceColumns [[9, 5, 7]] 1).getD 0 [] = (sliceColumns [[0, 5, 0]] 1).getD 0 [] ∧
        npAll ((sliceColumns [[9, 5, 7]] 1).getD 0 []) =
          npAll ((sliceColumns [[0, 5, 0]] 1).getD 0 []) ∧
        (updateSpec (fun j => j) 0 ((sliceColumns [[9, 5, 7]] 1).map npAll) [false]).1.getD 0 none =
          (updateSpec (fun j => j) 0 ((sliceColumns [[0, 5, 0]] 1).map npAll) [false]).1.getD 0 none ∧
        handlePress (fun j => some j) 0 (sliceColumns [[9, 5, 7]] 1) [false] =
          Except.ok
            ((updateSpec (fun j => j) 0 ((sliceColumns [[9, 5, 7]] 1).map npAll) [false]).1.reduceOption,
             (updateSpec (fun j => j) 0 ((sliceColumns [[9, 5, 7]] 1).map npAll) [false]).2)) :=
  ⟨by decide, by decide, by decide, by decide, by decide, by decide, by decide,
    by decide, by decide, by decide,
    claim_c9_noninterference (fun j => j) [[9, 5, 7]] [[0, 5, 0]] 1 3 0 [false]
      (by decide) (by decide) (by decide) (by decide) (by decide) (by decide)
      (by decide) (by decide) (by decide) (by decide)⟩

/-- Witness for C10: one column, frames lighting then darkening it;
the run presses then releases, strictly alternating from a press. -/
theorem claim_c10_witness :
    (∀ f ∈ ([[[255]], [[0]]] : List (List (List Nat))), f.length = 1) ∧
      0 < 1 ∧
      (runFrames (fun j => some j) [[[255]], [[0]]] (initStates 1) =
          Except.ok
            ((runSpec (fun j => j)
                (([[[255]], [[0]]] : List (List (List Nat))).map (fun f => f.map npAll))
                (initStates 1)).1.map List.reduceOption,
             (runSpec (fun j => j)
                (([[[255]], [[0]]] : List (List (List Nat))).map (fun f => f.map npAll))
                (initStates 1)).2) ∧
        (runSpec (fun j => j)
            (([[[255]], [[0]]] : List (List (List Nat))).map (fun f => f.map npAll))
            (initStates 1)).1.map (fun opts => opts.getD 0 none) =
          ((colRun (([[[255]], [[0]]] : List (List (List Nat))).map
              (fun f => npAll (f.getD 0 []))) false).1).map
            (Option.map (actOf 0)) ∧
        altFrom true
          (((colRun (([[[255]], [[0]]] : List (List (List Nat))).map
              (fun f => npAll (f.getD 0 []))) false).1).reduceOption) = true) :=
  ⟨by decide, by decide,
    claim_c10_alternation (fun j => j) [[[255]], [[0]]] 1 0 (by decide) (by decide)⟩

end OsuBot
